import Mathlib

/-!
Shallow embedding of the authentication core of the snake-game repository:
`src/server/utils/auth.ts`, `src/server/utils/apple-auth.ts`,
`src/server/api/auth/apple/callback.post.ts`, over the data model of
`src/server/database/schema.ts`.

Modelling conventions:
- JavaScript strings are modelled as `List Char` (abbreviated `Str`), so that
  every operation reduces in the kernel.
- JavaScript numbers appearing as byte values and lengths are `Nat`;
  timestamps (`Date.now()` milliseconds, JWT `exp` seconds) are `Int`.
- `Uint8Array` values are `List Nat` of values `< 256`.
- The record store (Drizzle/D1) is a list of rows; `.get()` on a filtered
  select is `List.find?`; insert is append; update is `List.map`; delete is
  `List.filter`.
- External primitives that are not part of the repository's code
  (PBKDF2 via `crypto.subtle.deriveBits`, `JSON.parse` composed with
  base64url decoding, the Apple token-exchange HTTP call) are passed in as
  explicit function arguments; every theorem quantifies over them.
- JavaScript truthiness of optional strings (`!x` is true for `undefined`
  and for the empty string) is modelled by `optTruthy`.
-/

set_option maxRecDepth 8192

namespace SnakeGame

/-- JavaScript strings as lists of characters. -/
abbrev Str := List Char

/-- JavaScript `String.prototype.split` with a one-character separator:
`"a:b".split(":") = ["a","b"]`, `"".split(":") = [""]`. -/
def splitCh (c : Char) : Str → List Str
  | [] => [[]]
  | x :: xs =>
    if x = c then [] :: splitCh c xs
    else
      match splitCh c xs with
      | [] => [[x]]
      | h :: t => (x :: h) :: t

/-- JavaScript truthiness for an optional string: `undefined`, `null` and
`""` are falsy, every non-empty string is truthy. -/
def optTruthy : Option Str → Bool
  | none => false
  | some s => !s.isEmpty

/-- `email.toLowerCase().trim()` as used throughout `auth.ts` to normalize
emails before lookup or storage. -/
def normalizeEmail (s : Str) : Str :=
  ((s.map Char.toLower).dropWhile Char.isWhitespace).reverse.dropWhile Char.isWhitespace |>.reverse

-- ─── Hex encoding (auth.ts: bytesToHex / hexToBytes) ─────────────────────

/-- Value of a hex digit character, as `parseInt(c, 16)` produces on the
digits this development feeds it. -/
def hexVal (c : Char) : Nat :=
  if c.isDigit then c.toNat - '0'.toNat
  else if 'a' ≤ c ∧ c ≤ 'f' then c.toNat - 'a'.toNat + 10
  else if 'A' ≤ c ∧ c ≤ 'F' then c.toNat - 'A'.toNat + 10
  else 0

/-- `b.toString(16).padStart(2, '0')` for a byte `b` (auth.ts `bytesToHex`
body). `Nat.toDigits 16` produces the same lowercase hex digits as
JavaScript's `toString(16)`. -/
def byteToHex (b : Nat) : Str :=
  let d := Nat.toDigits 16 b
  List.replicate (2 - d.length) '0' ++ d

/-- auth.ts `bytesToHex`: concatenate the two-digit hex form of each byte. -/
def bytesToHex (bs : List Nat) : Str :=
  (bs.map byteToHex).flatten

/-- auth.ts `hexToBytes`: parse consecutive 2-character slices as bytes.
An odd-length input throws in the source (fractional `Uint8Array` length);
the trailing lone character case is unreachable in every use below. -/
def hexPairsToBytes : Str → List Nat
  | c1 :: c2 :: rest => (hexVal c1 * 16 + hexVal c2) :: hexPairsToBytes rest
  | [_] => []
  | [] => []

-- ─── Password hashing (auth.ts: hashPassword / verifyPassword) ───────────

/-- The PBKDF2-HMAC-SHA-256 derivation performed by
`crypto.subtle.deriveBits` — an external crypto primitive, abstracted as a
deterministic function from password and salt to the derived key bytes. -/
abbrev Kdf := Str → List Nat → List Nat

/-- auth.ts `hashPassword`, with the randomly generated 16-byte salt made an
explicit argument: returns `hex(salt) + ":" + hex(derivedKey)`. -/
def hashPassword (kdf : Kdf) (salt : List Nat) (password : Str) : Str :=
  bytesToHex salt ++ ':' :: bytesToHex (kdf password salt)

/-- auth.ts `verifyPassword`: split the stored digest on `':'`, reject a
malformed format (missing or empty part), recompute the derived key with the
extracted salt, compare hex encodings. -/
def verifyPassword (kdf : Kdf) (password stored : Str) : Bool :=
  let parts := splitCh ':' stored
  let saltHex := parts.getD 0 []
  let expectedHex := parts.getD 1 []
  if saltHex.isEmpty || expectedHex.isEmpty then false
  else
    let salt := hexPairsToBytes saltHex
    decide (bytesToHex (kdf password salt) = expectedHex)

-- ─── DER → raw signature conversion (apple-auth.ts: derToRaw) ────────────

/-- `raw.set(src, pos)` on a `Uint8Array` viewed as a list (in-range use
only, which `derToRaw` guarantees): overwrite `src.length` elements starting
at `pos`. -/
def setAt (arr : List Nat) (pos : Nat) (src : List Nat) : List Nat :=
  arr.take pos ++ src ++ arr.drop (pos + src.length)

/-- One INTEGER-parsing block of apple-auth.ts `derToRaw` (the code for `r`
and for `s` is identical): check the 0x02 tag at `offset`, read the length
byte, drop a leading 0x00 when the length is 33 (treating it as 32).
Returns the offset of the value bytes and the effective length.
Out-of-range reads are faithful to JavaScript: `der[i]` is `undefined`,
which fails the `=== 0x02` and `=== 0x00` comparisons and which
`der[i] || 0` turns into 0 — hence `getD _ 0` for the former two is only
used where the default cannot equal the compared constant. -/
def parseIntStep (der : List Nat) (offset : Nat) : Except String (Nat × Nat) :=
  if der.getD offset 0 ≠ 2 then .error "Invalid DER signature"
  else
    let len := der.getD (offset + 1) 0
    if len = 33 ∧ der.get? (offset + 2) = some 0 then .ok (offset + 3, 32)
    else .ok (offset + 2, len)

/-- apple-auth.ts `derToRaw`: a 64-byte input is returned unchanged;
otherwise skip the 2-byte SEQUENCE header, parse the INTEGER for `r` into
the first 32 bytes (right-aligned, `min len 32` bytes copied), advance by
the (pre-drop-adjusted) length, parse the INTEGER for `s` into the last 32
bytes. -/
def derToRaw (der : List Nat) : Except String (List Nat) :=
  if der.length = 64 then .ok der
  else
    match parseIntStep der 2 with
    | .error e => .error e
    | .ok (rStart, rLen) =>
      let m := min rLen 32
      let raw1 := setAt (List.replicate 64 0) (32 - m) ((der.drop rStart).take m)
      match parseIntStep der (rStart + rLen) with
      | .error e => .error e
      | .ok (sStart, sLen) =>
        let ms := min sLen 32
        .ok (setAt raw1 (64 - ms) ((der.drop sStart).take ms))

/-- A well-formed DER INTEGER body for `derToRaw`: at most 32 value bytes,
or exactly 33 with a leading 0x00 sign-padding byte. -/
def derIntOk (v : List Nat) : Prop :=
  v.length ≤ 32 ∨ (v.length = 33 ∧ v.head? = some 0)

instance (v : List Nat) : Decidable (derIntOk v) := by
  unfold derIntOk
  infer_instance

/-- Tag-length-value encoding of a DER INTEGER with value bytes `v`. -/
def derInt (v : List Nat) : List Nat := 2 :: v.length :: v

/-- A DER ECDSA signature blob: two header bytes (tag and length, skipped
blindly by `derToRaw`) followed by the INTEGERs for `r` and `s`. -/
def mkDer (h0 h1 : Nat) (r s : List Nat) : List Nat :=
  h0 :: h1 :: (derInt r ++ derInt s)

/-- Value bytes after removing the sign-padding byte of a length-33 INTEGER. -/
def stripInt (v : List Nat) : List Nat := if v.length = 33 then v.tail else v

/-- Left-pad with zeros to 32 bytes — the expected layout of each half of the
raw signature. -/
def pad32 (v : List Nat) : List Nat := List.replicate (32 - v.length) 0 ++ v

-- ─── Data model (schema.ts) ──────────────────────────────────────────────

/-- A row of the `users` table (schema.ts): nullable password hash (OAuth-only
accounts), nullable display name, nullable unique Apple subject id, admin
flag defaulting to false, ISO-8601 timestamp strings. -/
structure User where
  id : Str
  email : Str
  passwordHash : Option Str
  name : Option Str
  appleId : Option Str
  isAdmin : Bool
  createdAt : Str
  updatedAt : Str
deriving Repr, DecidableEq

/-- A row of the `sessions` table (schema.ts): `expiresAt` is a millisecond
timestamp (`integer` column in timestamp mode). -/
structure Session where
  id : Str
  userId : Str
  expiresAt : Int
  createdAt : Str
deriving Repr, DecidableEq

-- ─── User management (auth.ts) ───────────────────────────────────────────

/-- auth.ts `getUserByEmail`: select the first row whose email equals the
normalized email. -/
def getUserByEmail (db : List User) (email : Str) : Option User :=
  db.find? (fun u => decide (u.email = normalizeEmail email))

/-- auth.ts `getUserById`. -/
def getUserById (db : List User) (id : Str) : Option User :=
  db.find? (fun u => decide (u.id = id))

/-- auth.ts `createUser`, with the generated `nanoid`, the random salt and
`new Date().toISOString()` made explicit arguments: hash the password,
insert the row (no `appleId`, `isAdmin` falls back to the schema default
`false`), re-select it by id, fail with the 500 message if absent. -/
def createUser (db : List User) (kdf : Kdf) (newId : Str) (salt : List Nat)
    (now email password : Str) (name : Option Str) :
    Except String (User × List User) :=
  let passwordHash := hashPassword kdf salt password
  let newUser : User :=
    { id := newId
      email := normalizeEmail email
      passwordHash := some passwordHash
      name := if optTruthy name then name else none
      appleId := none
      isAdmin := false
      createdAt := now
      updatedAt := now }
  let db' := db ++ [newUser]
  match db'.find? (fun u => decide (u.id = newId)) with
  | none => .error "Failed to create user"
  | some u => .ok (u, db')

/-- auth.ts `verifyCredentials`: look up by normalized email; `null` when no
row or the row's password hash is falsy; otherwise delegate to
`verifyPassword`, returning the user on success and `null` on failure. -/
def verifyCredentials (db : List User) (kdf : Kdf) (email password : Str) :
    Option User :=
  match db.find? (fun u => decide (u.email = normalizeEmail email)) with
  | none => none
  | some user =>
    if optTruthy user.passwordHash then
      if verifyPassword kdf password (user.passwordHash.getD []) then some user
      else none
    else none

/-- The named-argument record of auth.ts `findOrCreateOAuthUser`. -/
structure OAuthOpts where
  email : Str
  name : Option Str
  appleId : Option Str
deriving Repr, DecidableEq

/-- The store update of the linking branch of `findOrCreateOAuthUser`:
`db.update(users).set({ appleId, updatedAt }).where(eq(users.id, targetId))`
— rewrite `appleId` and `updatedAt` of every row with the target id. -/
def linkAppleId (aid : Option Str) (now : Str) (targetId : Str)
    (db : List User) : List User :=
  db.map (fun u =>
    if u.id = targetId then { u with appleId := aid, updatedAt := now } else u)

/-- auth.ts `findOrCreateOAuthUser`: look up by email; if found, link the
Apple id (update writing `appleId` and `updatedAt`) when a truthy `appleId`
is supplied and the record's is falsy, then return the *previously fetched*
record; if not found, insert a new row with no password hash and re-select
it by id. -/
def findOrCreateOAuthUser (db : List User) (newId now : Str) (opts : OAuthOpts) :
    Except String (User × List User) :=
  match getUserByEmail db opts.email with
  | some existing =>
    let db' :=
      if optTruthy opts.appleId && !optTruthy existing.appleId then
        linkAppleId opts.appleId now existing.id db
      else db
    .ok (existing, db')
  | none =>
    let newUser : User :=
      { id := newId
        email := normalizeEmail opts.email
        passwordHash := none
        name := if optTruthy opts.name then opts.name else none
        appleId := if optTruthy opts.appleId then opts.appleId else none
        isAdmin := false
        createdAt := now
        updatedAt := now }
    let db' := db ++ [newUser]
    match db'.find? (fun u => decide (u.id = newId)) with
    | none => .error "Failed to create OAuth user"
    | some u => .ok (u, db')

-- ─── Session management (auth.ts) ────────────────────────────────────────

/-- auth.ts `SESSION_EXPIRY_MS`. -/
def SESSION_EXPIRY_MS : Int := 30 * 24 * 60 * 60 * 1000

/-- auth.ts `createSession`, with the generated id and the current clock
made explicit: insert a row expiring 30 days from now, return the id. -/
def createSession (sessions : List Session) (newId : Str) (nowMs : Int)
    (nowIso : Str) (userId : Str) : Str × List Session :=
  (newId,
   sessions ++ [{ id := newId, userId := userId,
                  expiresAt := nowMs + SESSION_EXPIRY_MS, createdAt := nowIso }])

/-- auth.ts `deleteSession`: delete every row with the given id (idempotent). -/
def deleteSession (sessions : List Session) (sessionId : Str) : List Session :=
  sessions.filter (fun s => !decide (s.id = sessionId))

/-- auth.ts `validateSession`: `null` if the session row is absent; if
`expiresAt` is strictly in the past, delete the row and return `null`;
otherwise return `getUserById` of the owning user. The returned list is the
session table after the call (unchanged except for the lazy deletion). -/
def validateSession (users : List User) (sessions : List Session)
    (nowMs : Int) (sessionId : Str) : Option User × List Session :=
  match sessions.find? (fun s => decide (s.id = sessionId)) with
  | none => (none, sessions)
  | some session =>
    if session.expiresAt < nowMs then (none, deleteSession sessions sessionId)
    else (getUserById users session.userId, sessions)

-- ─── Apple ID token decoding (apple-auth.ts: decodeAppleIdToken) ─────────

/-- The claims of an Apple identity token (apple-auth.ts
`AppleIdTokenPayload`; the fields the code reads). -/
structure AppleIdTokenPayload where
  iss : Str
  aud : Str
  exp : Int
  sub : Str
  email : Option Str
deriving Repr, DecidableEq

/-- apple-auth.ts `decodeAppleIdToken`. `parsePayload` abstracts the
external runtime composition `JSON.parse ∘ TextDecoder.decode ∘
base64urlDecode` applied to the middle segment. The clock `nowSec` is
`Math.floor(Date.now() / 1000)`. Splits on dots and requires exactly 3
segments; then checks issuer, audience, and expiry in that order, each with
its own error message. -/
def decodeAppleIdToken (parsePayload : Str → AppleIdTokenPayload)
    (appleClientId : Str) (nowSec : Int) (idToken : Str) :
    Except String AppleIdTokenPayload :=
  let parts := splitCh '.' idToken
  if parts.length ≠ 3 then .error "Invalid Apple ID token format"
  else
    let payload := parsePayload (parts.getD 1 [])
    if payload.iss ≠ "https://appleid.apple.com".data then
      .error "Invalid Apple ID token issuer"
    else if payload.aud ≠ appleClientId then
      .error "Invalid Apple ID token audience"
    else if payload.exp < nowSec then
      .error "Apple ID token has expired"
    else .ok payload

-- ─── Apple callback handler (callback.post.ts) ───────────────────────────

/-- The fields of the form-posted callback body that the CSRF/code section
reads. -/
structure CallbackBody where
  code : Option Str
  state : Option Str
deriving Repr, DecidableEq

/-- The cookie jar as far as this handler touches it. -/
structure OauthCookies where
  appleOauthState : Option Str
deriving Repr, DecidableEq

/-- The provider's token-endpoint response (apple-auth.ts
`AppleTokenResponse`; only the field the callback reads further). -/
structure AppleTokenResponse where
  idToken : Option Str
deriving Repr, DecidableEq

/-- callback.post.ts, up to and including the token-exchange step, which is
where claims C8 and C10 live: read the stored state cookie, then
unconditionally delete it; reject with the CSRF message when the submitted
or stored state is falsy or the two differ; reject when the code is falsy;
otherwise invoke the exchange (abstracted as `exchangeAppleCode`) and return
its result. The `Bool` records whether the exchange step was reached, and
the returned `OauthCookies` is the jar after the handler ran. -/
def appleCallback (exchangeAppleCode : Str → Except String AppleTokenResponse)
    (body : CallbackBody) (cookies : OauthCookies) :
    Except String AppleTokenResponse × OauthCookies × Bool :=
  let storedState := cookies.appleOauthState
  let cookies' : OauthCookies := { appleOauthState := none }
  if !optTruthy body.state || !optTruthy storedState
      || decide (body.state ≠ storedState) then
    (.error "Invalid state — possible CSRF attack", cookies', false)
  else if !optTruthy body.code then
    (.error "Missing authorization code", cookies', false)
  else
    (exchangeAppleCode (body.code.getD []), cookies', true)

-- ─── Concrete fixtures used by witness theorems ──────────────────────────

/-- A concrete stand-in for the PBKDF2 primitive, used in witnesses. It
depends on the password so that wrong-password cases genuinely fail. -/
def kdfConst : Kdf := fun pw _ => List.replicate 31 3 ++ [pw.length % 256]

/-- A concrete 16-byte salt, used in witnesses. -/
def saltA : List Nat := List.replicate 16 7

/-- A password-credentialed user row, used in witnesses. -/
def alice : User :=
  { id := "u1".data
    email := "a@x.com".data
    passwordHash := some (hashPassword kdfConst saltA "secret12".data)
    name := none
    appleId := none
    isAdmin := false
    createdAt := "t0".data
    updatedAt := "t0".data }

/-- An OAuth-only user row (no password digest), used in witnesses. -/
def bob : User :=
  { id := "u2".data
    email := "b@y.com".data
    passwordHash := none
    name := none
    appleId := some "apple-bob".data
    isAdmin := false
    createdAt := "t0".data
    updatedAt := "t0".data }

/-- A user row with neither digest nor Apple id, used in link witnesses. -/
def carol : User :=
  { id := "u3".data
    email := "c@z.com".data
    passwordHash := none
    name := none
    appleId := none
    isAdmin := false
    createdAt := "t0".data
    updatedAt := "t0".data }

/-- An unexpired session row, used in witnesses. -/
def sessLive : Session := { id := "s1".data, userId := "u1".data, expiresAt := 1000, createdAt := "t0".data }

/-- An already-expired session row, used in witnesses. -/
def sessOld : Session := { id := "s2".data, userId := "u1".data, expiresAt := 10, createdAt := "t0".data }

-- ─── Helper lemmas: splitCh and hex encoding ─────────────────────────────

theorem splitCh_of_not_mem {c : Char} {xs : Str} (h : c ∉ xs) :
    splitCh c xs = [xs] := by
  induction xs with
  | nil => rfl
  | cons x t ih =>
    have hx : ¬ x = c := fun hc => h (hc ▸ List.mem_cons_self x t)
    have ht : c ∉ t := fun hc => h (List.mem_cons_of_mem x hc)
    simp only [splitCh, if_neg hx, ih ht]

theorem splitCh_append {c : Char} {xs ys : Str} (h : c ∉ xs) :
    splitCh c (xs ++ c :: ys) = xs :: splitCh c ys := by
  induction xs with
  | nil => simp [splitCh]
  | cons x t ih =>
    have hx : ¬ x = c := fun hc => h (hc ▸ List.mem_cons_self x t)
    have ht : c ∉ t := fun hc => h (List.mem_cons_of_mem x hc)
    simp only [List.cons_append, splitCh, if_neg hx, List.append_eq, ih ht]

theorem byteToHex_length : ∀ b < 256, (byteToHex b).length = 2 := by decide

theorem byteToHex_pair (b : Nat) (hb : b < 256) :
    byteToHex b = [(byteToHex b).getD 0 ' ', (byteToHex b).getD 1 ' '] := by
  have h2 := byteToHex_length b hb
  match heq : byteToHex b with
  | [c1, c2] => rfl
  | [] => simp [heq] at h2
  | [c] => simp [heq] at h2
  | c1 :: c2 :: c3 :: t => simp [heq] at h2

theorem byteToHex_roundtrip :
    ∀ b < 256,
      hexVal ((byteToHex b).getD 0 ' ') * 16 + hexVal ((byteToHex b).getD 1 ' ') = b := by
  decide

theorem colon_not_mem_byteToHex : ∀ b < 256, ':' ∉ byteToHex b := by decide

theorem bytesToHex_cons (b : Nat) (bs : List Nat) :
    bytesToHex (b :: bs) = byteToHex b ++ bytesToHex bs := by
  simp [bytesToHex]

theorem hexPairsToBytes_bytesToHex {bs : List Nat} (h : ∀ b ∈ bs, b < 256) :
    hexPairsToBytes (bytesToHex bs) = bs := by
  induction bs with
  | nil => rfl
  | cons b t ih =>
    have hb : b < 256 := h b (List.mem_cons_self b t)
    have ht : ∀ x ∈ t, x < 256 := fun x hx => h x (List.mem_cons_of_mem b hx)
    rw [bytesToHex_cons, byteToHex_pair b hb]
    simp only [List.cons_append, List.nil_append, List.append_eq, hexPairsToBytes]
    rw [byteToHex_roundtrip b hb, ih ht]

theorem colon_not_mem_bytesToHex {bs : List Nat} (h : ∀ b ∈ bs, b < 256) :
    ':' ∉ bytesToHex bs := by
  induction bs with
  | nil => simp [bytesToHex]
  | cons b t ih =>
    have hb : b < 256 := h b (List.mem_cons_self b t)
    have ht : ∀ x ∈ t, x < 256 := fun x hx => h x (List.mem_cons_of_mem b hx)
    rw [bytesToHex_cons]
    intro hmem
    rcases List.mem_append.mp hmem with h1 | h2
    · exact colon_not_mem_byteToHex b hb h1
    · exact ih ht h2

theorem bytesToHex_length {bs : List Nat} (h : ∀ b ∈ bs, b < 256) :
    (bytesToHex bs).length = 2 * bs.length := by
  induction bs with
  | nil => rfl
  | cons b t ih =>
    have hb : b < 256 := h b (List.mem_cons_self b t)
    have ht : ∀ x ∈ t, x < 256 := fun x hx => h x (List.mem_cons_of_mem b hx)
    rw [bytesToHex_cons, List.length_append, byteToHex_length b hb, ih ht,
      List.length_cons]
    ring

theorem verifyPassword_hashPassword {kdf : Kdf} {p : Str} {s : List Nat}
    (hk : ∀ pw salt, (kdf pw salt).length = 32 ∧ ∀ b ∈ kdf pw salt, b < 256)
    (hlen : s.length = 16) (hb : ∀ b ∈ s, b < 256) :
    verifyPassword kdf p (hashPassword kdf s p) = true := by
  have hkb : ∀ b ∈ kdf p s, b < 256 := (hk p s).2
  have hkl : (kdf p s).length = 32 := (hk p s).1
  have hsne : ¬ (bytesToHex s).isEmpty = true := by
    rw [List.isEmpty_iff_length_eq_zero, bytesToHex_length hb, hlen]
    omega
  have hkne : ¬ (bytesToHex (kdf p s)).isEmpty = true := by
    rw [List.isEmpty_iff_length_eq_zero, bytesToHex_length hkb, hkl]
    omega
  have hg : ¬ ((bytesToHex s).isEmpty || (bytesToHex (kdf p s)).isEmpty) = true := by
    simp only [Bool.or_eq_true]
    rintro (hc | hc)
    · exact hsne hc
    · exact hkne hc
  simp only [verifyPassword, hashPassword]
  simp only [splitCh_append (colon_not_mem_bytesToHex hb),
    splitCh_of_not_mem (colon_not_mem_bytesToHex hkb)]
  simp only [List.getD_cons_zero, List.getD_cons_succ]
  rw [if_neg hg]
  simp only [hexPairsToBytes_bytesToHex hb]
  simp

theorem hashPassword_salt_inj {kdf : Kdf} {p : Str} {s1 s2 : List Nat}
    (h1 : ∀ b ∈ s1, b < 256) (h2 : ∀ b ∈ s2, b < 256)
    (hl : s1.length = s2.length)
    (heq : hashPassword kdf s1 p = hashPassword kdf s2 p) : s1 = s2 := by
  unfold hashPassword at heq
  have hlen : (bytesToHex s1).length = (bytesToHex s2).length := by
    rw [bytesToHex_length h1, bytesToHex_length h2, hl]
  have := (List.append_inj heq hlen).1
  calc s1 = hexPairsToBytes (bytesToHex s1) := (hexPairsToBytes_bytesToHex h1).symm
    _ = hexPairsToBytes (bytesToHex s2) := by rw [this]
    _ = s2 := hexPairsToBytes_bytesToHex h2

/-- Claim C5: for every password `p`, `verify(p, hash(p))` returns true, and
two calls of `hash(p)` with the distinct fresh random 16-byte salts they
draw yield two different stored strings, both of which verify `p` as true.
The PBKDF2 primitive is abstracted as any function producing 32 bytes. -/
theorem password_hash_verify_roundtrip :
    ∀ (kdf : Kdf) (p : Str) (s1 s2 : List Nat),
    (∀ pw salt, (kdf pw salt).length = 32 ∧ ∀ b ∈ kdf pw salt, b < 256) →
    s1.length = 16 → (∀ b ∈ s1, b < 256) →
    s2.length = 16 → (∀ b ∈ s2, b < 256) →
    verifyPassword kdf p (hashPassword kdf s1 p) = true ∧
    verifyPassword kdf p (hashPassword kdf s2 p) = true ∧
    (s1 ≠ s2 → hashPassword kdf s1 p ≠ hashPassword kdf s2 p) := by
  intro kdf p s1 s2 hk hl1 hb1 hl2 hb2
  refine ⟨verifyPassword_hashPassword hk hl1 hb1,
    verifyPassword_hashPassword hk hl2 hb2, fun hne heq => ?_⟩
  exact hne (hashPassword_salt_inj hb1 hb2 (hl1.trans hl2.symm) heq)

/-- Witness for C5 at a concrete KDF, password and salt pair. -/
theorem password_hash_verify_roundtrip_witness :
    verifyPassword (fun _ _ => List.replicate 32 1) "pw".data
      (hashPassword (fun _ _ => List.replicate 32 1) (List.replicate 16 0) "pw".data) = true ∧
    verifyPassword (fun _ _ => List.replicate 32 1) "pw".data
      (hashPassword (fun _ _ => List.replicate 32 1) (List.replicate 16 2) "pw".data) = true ∧
    hashPassword (fun _ _ => List.replicate 32 1) (List.replicate 16 0) "pw".data ≠
      hashPassword (fun _ _ => List.replicate 32 1) (List.replicate 16 2) "pw".data := by
  have h := password_hash_verify_roundtrip (fun _ _ => List.replicate 32 1) "pw".data
    (List.replicate 16 0) (List.replicate 16 2)
    (fun pw salt => ⟨by simp, fun b hb => by simp only [List.mem_replicate] at hb; omega⟩)
    (by simp) (fun b hb => by simp only [List.mem_replicate] at hb; omega)
    (by simp) (fun b hb => by simp only [List.mem_replicate] at hb; omega)
  exact ⟨h.1, h.2.1, h.2.2 (by decide)⟩

-- ─── Helper lemmas: list indexing at append boundaries ───────────────────

theorem getD_at_append {α : Type} (pre : List α) (x : α) (rest : List α) (d : α) :
    (pre ++ x :: rest).getD pre.length d = x := by
  induction pre with
  | nil => rfl
  | cons a t ih => simpa using ih

theorem get?_at_append {α : Type} (A B : List α) :
    (A ++ B).get? A.length = B.head? := by
  induction A with
  | nil => cases B <;> rfl
  | cons a t ih => simpa using ih

theorem drop_append_add {α : Type} (A B : List α) (k : Nat) :
    (A ++ B).drop (A.length + k) = B.drop k := by
  induction A with
  | nil => simp
  | cons a t ih =>
    have harith : (a :: t).length + k = (t.length + k) + 1 := by
      simp only [List.length_cons]
      omega
    rw [harith, List.cons_append, List.drop_succ_cons, ih]

theorem take_append_add {α : Type} (A B : List α) (k : Nat) :
    (A ++ B).take (A.length + k) = A ++ B.take k := by
  induction A with
  | nil => simp
  | cons a t ih =>
    have harith : (a :: t).length + k = (t.length + k) + 1 := by
      simp only [List.length_cons]
      omega
    rw [harith, List.cons_append, List.take_succ_cons, ih, List.cons_append]

theorem drop_append_len {α : Type} (A B : List α) : (A ++ B).drop A.length = B := by
  simp

theorem take_append_len {α : Type} (A B : List α) : (A ++ B).take A.length = A := by
  simp

theorem head?_append_left {α : Type} {A : List α} (B : List α) (h : A ≠ []) :
    (A ++ B).head? = A.head? := by
  cases A with
  | nil => exact absurd rfl h
  | cons a t => rfl

-- ─── DER parsing lemmas (derToRaw) ───────────────────────────────────────

theorem stripInt_length_le {v : List Nat} (hv : derIntOk v) :
    (stripInt v).length ≤ 32 := by
  rcases hv with h | ⟨h33, _⟩
  · rw [stripInt, if_neg (by omega)]
    exact h
  · rw [stripInt, if_pos h33, List.length_tail, h33]

theorem parseIntStep_at (pre : List Nat) (L : Nat) (body : List Nat) :
    parseIntStep (pre ++ 2 :: L :: body) pre.length =
      if L = 33 ∧ body.head? = some 0 then .ok (pre.length + 3, 32)
      else .ok (pre.length + 2, L) := by
  unfold parseIntStep
  have htag : (pre ++ 2 :: L :: body).getD pre.length 0 = 2 :=
    getD_at_append pre 2 (L :: body) 0
  have hlen : (pre ++ 2 :: L :: body).getD (pre.length + 1) 0 = L := by
    have := getD_at_append (pre ++ [2]) L body 0
    simpa [List.append_assoc] using this
  have hsign : (pre ++ 2 :: L :: body).get? (pre.length + 2) = body.head? := by
    have := get?_at_append (pre ++ [2, L]) body
    simpa [List.append_assoc] using this
  rw [htag, hlen, hsign, if_neg (by omega)]

theorem parseIntStep_value (pre v rest : List Nat) (hv : derIntOk v) :
    ∃ start eff,
      parseIntStep (pre ++ derInt v ++ rest) pre.length = .ok (start, eff) ∧
      start + eff = pre.length + 2 + v.length ∧
      min eff 32 = (stripInt v).length ∧
      ((pre ++ derInt v ++ rest).drop start).take (min eff 32) = stripInt v := by
  have hshape : pre ++ derInt v ++ rest = pre ++ 2 :: v.length :: (v ++ rest) := by
    simp [derInt]
  rcases hv with hle | ⟨h33, hhd⟩
  · refine ⟨pre.length + 2, v.length, ?_, by omega, ?_, ?_⟩
    · rw [hshape, parseIntStep_at, if_neg (by omega)]
    · rw [Nat.min_eq_left hle, stripInt, if_neg (by omega)]
    · rw [Nat.min_eq_left hle, stripInt, if_neg (by omega), hshape]
      have hdrop : (pre ++ 2 :: v.length :: (v ++ rest)).drop (pre.length + 2) = v ++ rest := by
        simp [List.append_assoc]
      rw [hdrop, take_append_len]
  · have hne : v ≠ [] := by
      intro hnil
      rw [hnil] at h33
      simp at h33
    refine ⟨pre.length + 3, 32, ?_, by omega, ?_, ?_⟩
    · rw [hshape, parseIntStep_at,
        if_pos ⟨h33, by rw [head?_append_left rest hne]; exact hhd⟩]
    · rw [Nat.min_self, stripInt, if_pos h33, List.length_tail, h33]
    · rw [Nat.min_self, stripInt, if_pos h33, hshape]
      have hdrop : (pre ++ 2 :: v.length :: (v ++ rest)).drop (pre.length + 3) =
          v.tail ++ rest := by
        have h1 := drop_append_add (pre ++ [2, v.length]) (v ++ rest) 1
        have h2 : (v ++ rest).drop 1 = v.tail ++ rest := by
          cases v with
          | nil => exact absurd rfl hne
          | cons a t => simp
        simp only [List.append_assoc] at h1
        simp only [List.length_append, List.length_cons] at h1 ⊢
        rw [show pre.length + 3 = pre.length + 2 + 1 by omega]
        simpa [h2] using h1
      rw [hdrop]
      have htail : v.tail.length = 32 := by rw [List.length_tail, h33]
      rw [← htail, take_append_len]

theorem setAt_result (r s : List Nat) (hr : r.length ≤ 32) (hs : s.length ≤ 32) :
    setAt (setAt (List.replicate 64 0) (32 - r.length) r) (64 - s.length) s =
      pad32 r ++ pad32 s := by
  unfold setAt pad32
  have htake1 : (List.replicate 64 (0 : Nat)).take (32 - r.length) =
      List.replicate (32 - r.length) 0 := by
    rw [List.take_replicate, Nat.min_eq_left (by omega)]
  have hdrop1 : (List.replicate 64 (0 : Nat)).drop (32 - r.length + r.length) =
      List.replicate 32 0 := by
    rw [List.drop_replicate]
    congr 1
    omega
  rw [htake1, hdrop1]
  have hA : (List.replicate (32 - r.length) (0 : Nat) ++ r).length = 32 := by
    simp only [List.length_append, List.length_replicate]
    omega
  have htake2 : (List.replicate (32 - r.length) (0 : Nat) ++ r ++ List.replicate 32 0).take
      (64 - s.length) =
      List.replicate (32 - r.length) 0 ++ r ++ List.replicate (32 - s.length) 0 := by
    have h64 : 64 - s.length = (List.replicate (32 - r.length) (0 : Nat) ++ r).length
        + (32 - s.length) := by
      rw [hA]
      omega
    rw [h64, take_append_add, List.take_replicate, Nat.min_eq_left (by omega)]
  have hdrop2 : (List.replicate (32 - r.length) (0 : Nat) ++ r ++ List.replicate 32 0).drop
      (64 - s.length + s.length) = [] := by
    apply List.drop_eq_nil_of_le
    simp only [List.length_append, List.length_replicate]
    omega
  rw [htake2, hdrop2]
  simp [List.append_assoc]

theorem derToRaw_passthrough {der : List Nat} (h : der.length = 64) :
    derToRaw der = .ok der := by
  unfold derToRaw
  rw [if_pos h]

theorem derToRaw_rtag_error {der : List Nat} (h64 : der.length ≠ 64)
    (htag : der.getD 2 0 ≠ 2) : derToRaw der = .error "Invalid DER signature" := by
  have hps : parseIntStep der 2 = .error "Invalid DER signature" := by
    unfold parseIntStep
    rw [if_pos htag]
  unfold derToRaw
  rw [if_neg h64]
  simp only [hps]

theorem derToRaw_stag_error {h0 h1 t : Nat} {rB rest : List Nat}
    (hr : derIntOk rB) (ht : t ≠ 2)
    (hlen : (h0 :: h1 :: (derInt rB ++ t :: rest) : List Nat).length ≠ 64) :
    derToRaw (h0 :: h1 :: (derInt rB ++ t :: rest)) =
      .error "Invalid DER signature" := by
  obtain ⟨start, eff, hps, hsum, _, _⟩ :=
    parseIntStep_value [h0, h1] rB (t :: rest) hr
  have heq1 : (h0 :: h1 :: (derInt rB ++ t :: rest) : List Nat) =
      [h0, h1] ++ derInt rB ++ t :: rest := by simp
  have hps1 : parseIntStep (h0 :: h1 :: (derInt rB ++ t :: rest)) 2 =
      .ok (start, eff) := by
    rw [heq1]
    exact hps
  have heq2 : (h0 :: h1 :: (derInt rB ++ t :: rest) : List Nat) =
      (h0 :: h1 :: derInt rB) ++ t :: rest := by simp
  have hpos : start + eff = (h0 :: h1 :: derInt rB : List Nat).length := by
    simp only [List.length_cons, List.length_nil, List.length_append, derInt] at hsum ⊢
    omega
  have hps2 : parseIntStep (h0 :: h1 :: (derInt rB ++ t :: rest)) (start + eff) =
      .error "Invalid DER signature" := by
    rw [hpos, heq2]
    unfold parseIntStep
    rw [getD_at_append (h0 :: h1 :: derInt rB) t rest 0, if_pos ht]
  unfold derToRaw
  rw [if_neg hlen]
  simp only [hps1, hps2]

theorem derToRaw_wellFormed {h0 h1 : Nat} {rB sB : List Nat}
    (hr : derIntOk rB) (hs : derIntOk sB)
    (hlen : (mkDer h0 h1 rB sB).length ≠ 64) :
    derToRaw (mkDer h0 h1 rB sB) = .ok (pad32 (stripInt rB) ++ pad32 (stripInt sB)) := by
  obtain ⟨start, eff, hps, hsum, hmin, hcopy⟩ :=
    parseIntStep_value [h0, h1] rB (derInt sB) hr
  obtain ⟨start2, eff2, hps2, hsum2, hmin2, hcopy2⟩ :=
    parseIntStep_value ([h0, h1] ++ derInt rB) sB [] hs
  have heq1 : mkDer h0 h1 rB sB = [h0, h1] ++ derInt rB ++ derInt sB := by
    simp [mkDer]
  have heq2 : mkDer h0 h1 rB sB = ([h0, h1] ++ derInt rB) ++ derInt sB ++ [] := by
    simp [mkDer]
  have hps1' : parseIntStep (mkDer h0 h1 rB sB) 2 = .ok (start, eff) := by
    rw [heq1]
    exact hps
  have hpos : start + eff = (([h0, h1] : List Nat) ++ derInt rB).length := by
    simp only [List.length_cons, List.length_nil, List.length_append, derInt] at hsum ⊢
    omega
  have hps2' : parseIntStep (mkDer h0 h1 rB sB) (start + eff) = .ok (start2, eff2) := by
    rw [hpos, heq2]
    exact hps2
  have hcopy1 : ((mkDer h0 h1 rB sB).drop start).take (min eff 32) = stripInt rB := by
    rw [heq1]
    exact hcopy
  have hcopy2' : ((mkDer h0 h1 rB sB).drop start2).take (min eff2 32) = stripInt sB := by
    rw [heq2]
    exact hcopy2
  unfold derToRaw
  rw [if_neg hlen]
  simp only [hps1', hps2']
  rw [hcopy1, hcopy2', hmin, hmin2,
    setAt_result _ _ (stripInt_length_le hr) (stripInt_length_le hs)]

/-- Claim C3: `derToRaw` implements the conversion the spec describes: a
64-byte input is returned unchanged; a non-0x02 tag at the `r` position or
at the `s` position raises the malformed-signature error; a blob with two
well-formed INTEGERs (after the 2-byte header that is skipped blindly)
decodes to the 64-byte concatenation of the zero-left-padded 32-byte `r`
and `s`, the length-33 sign-padding byte being dropped. -/
theorem derToRaw_spec :
    (∀ der : List Nat, der.length = 64 → derToRaw der = .ok der) ∧
    (∀ der : List Nat, der.length ≠ 64 → der.getD 2 0 ≠ 2 →
      derToRaw der = .error "Invalid DER signature") ∧
    (∀ (h0 h1 t : Nat) (rB rest : List Nat), derIntOk rB → t ≠ 2 →
      (h0 :: h1 :: (derInt rB ++ t :: rest) : List Nat).length ≠ 64 →
      derToRaw (h0 :: h1 :: (derInt rB ++ t :: rest)) =
        .error "Invalid DER signature") ∧
    (∀ (h0 h1 : Nat) (rB sB : List Nat), derIntOk rB → derIntOk sB →
      (mkDer h0 h1 rB sB).length ≠ 64 →
      derToRaw (mkDer h0 h1 rB sB) =
        .ok (pad32 (stripInt rB) ++ pad32 (stripInt sB))) := by
  exact ⟨fun _ h => derToRaw_passthrough h,
    fun _ h64 htag => derToRaw_rtag_error h64 htag,
    fun _ _ _ _ _ hr ht hlen => derToRaw_stag_error hr ht hlen,
    fun _ _ _ _ hr hs hlen => derToRaw_wellFormed hr hs hlen⟩

/-- Witness for C3: each conjunct applied at a concrete input — a 64-byte
raw signature, a blob with a bad `r` tag, a blob with a bad `s` tag, and a
well-formed blob whose `r` is short and whose `s` carries the 0x00
sign-padding byte. -/
theorem derToRaw_spec_witness :
    derToRaw (List.replicate 64 5) = .ok (List.replicate 64 5) ∧
    derToRaw [1, 2, 3] = .error "Invalid DER signature" ∧
    derToRaw (48 :: 6 :: (derInt [7] ++ 3 :: [])) = .error "Invalid DER signature" ∧
    derToRaw (mkDer 48 39 [1, 2] (0 :: List.replicate 32 9)) =
      .ok (pad32 (stripInt [1, 2]) ++ pad32 (stripInt (0 :: List.replicate 32 9))) := by
  refine ⟨derToRaw_spec.1 _ (by decide), derToRaw_spec.2.1 _ (by decide) (by decide),
    derToRaw_spec.2.2.1 48 6 3 [7] [] (by decide) (by decide) (by decide),
    derToRaw_spec.2.2.2 48 39 [1, 2] (0 :: List.replicate 32 9) (by decide) ?_ (by decide)⟩
  right
  refine ⟨by decide, by decide⟩

-- ─── decodeAppleIdToken (claim C4) ───────────────────────────────────────

/-- Counterexample to claim C4 as stated: a token whose `exp` equals the
current time (so `exp` is *not* in the future) is nevertheless accepted,
because the code only rejects `exp < now`. -/
theorem decodeAppleIdToken_exp_boundary_cex :
    (decodeAppleIdToken
        (fun _ => { iss := "https://appleid.apple.com".data, aud := "cid".data,
                    exp := 100, sub := "sub1".data, email := none })
        "cid".data 100 "a.b.c".data).toOption =
      some { iss := "https://appleid.apple.com".data, aud := "cid".data,
             exp := 100, sub := "sub1".data, email := none } ∧
    ¬ ((100 : Int) < 100) := by
  exact ⟨by decide, by decide⟩

/-- Claim C4 (amended): `decodeAppleIdToken` fails with the format error for
any token that does not split into exactly 3 dot-separated segments;
otherwise it parses the middle segment and accepts the token exactly when
`iss` equals the fixed issuer, `aud` equals the configured client id, and
`exp` is not in the past (a token whose `exp` equals the current floored
Unix second is accepted); each of the three checks fails with its own
distinct reason. -/
theorem decodeAppleIdToken_spec :
    (∀ (parse : Str → AppleIdTokenPayload) (cid : Str) (now : Int) (tok : Str),
      (splitCh '.' tok).length ≠ 3 →
      decodeAppleIdToken parse cid now tok = .error "Invalid Apple ID token format") ∧
    (∀ parse cid now tok, (splitCh '.' tok).length = 3 →
      (parse ((splitCh '.' tok).getD 1 [])).iss ≠ "https://appleid.apple.com".data →
      decodeAppleIdToken parse cid now tok = .error "Invalid Apple ID token issuer") ∧
    (∀ parse cid now tok, (splitCh '.' tok).length = 3 →
      (parse ((splitCh '.' tok).getD 1 [])).iss = "https://appleid.apple.com".data →
      (parse ((splitCh '.' tok).getD 1 [])).aud ≠ cid →
      decodeAppleIdToken parse cid now tok = .error "Invalid Apple ID token audience") ∧
    (∀ parse cid now tok, (splitCh '.' tok).length = 3 →
      (parse ((splitCh '.' tok).getD 1 [])).iss = "https://appleid.apple.com".data →
      (parse ((splitCh '.' tok).getD 1 [])).aud = cid →
      (parse ((splitCh '.' tok).getD 1 [])).exp < now →
      decodeAppleIdToken parse cid now tok = .error "Apple ID token has expired") ∧
    (∀ parse cid now tok, (splitCh '.' tok).length = 3 →
      (parse ((splitCh '.' tok).getD 1 [])).iss = "https://appleid.apple.com".data →
      (parse ((splitCh '.' tok).getD 1 [])).aud = cid →
      ¬ (parse ((splitCh '.' tok).getD 1 [])).exp < now →
      decodeAppleIdToken parse cid now tok = .ok (parse ((splitCh '.' tok).getD 1 []))) ∧
    ("Invalid Apple ID token issuer" ≠ "Invalid Apple ID token audience" ∧
     "Invalid Apple ID token issuer" ≠ "Apple ID token has expired" ∧
     "Invalid Apple ID token audience" ≠ "Apple ID token has expired") := by
  refine ⟨?_, ?_, ?_, ?_, ?_, by decide, by decide, by decide⟩
  · intro parse cid now tok h
    simp only [decodeAppleIdToken]
    rw [if_pos h]
  · intro parse cid now tok h3 hiss
    simp only [decodeAppleIdToken]
    rw [if_neg (by omega), if_pos hiss]
  · intro parse cid now tok h3 hiss haud
    simp only [decodeAppleIdToken]
    rw [if_neg (by omega), if_neg (by simpa using hiss), if_pos haud]
  · intro parse cid now tok h3 hiss haud hexp
    simp only [decodeAppleIdToken]
    rw [if_neg (by omega), if_neg (by simpa using hiss), if_neg (by simpa using haud),
      if_pos hexp]
  · intro parse cid now tok h3 hiss haud hexp
    simp only [decodeAppleIdToken]
    rw [if_neg (by omega), if_neg (by simpa using hiss), if_neg (by simpa using haud),
      if_neg hexp]

/-- Witness for C4 at concrete tokens: a 2-segment token, a bad issuer, a
bad audience, a stale expiry, and an accepted token. -/
theorem decodeAppleIdToken_spec_witness :
    decodeAppleIdToken
        (fun _ => { iss := "x".data, aud := "cid".data, exp := 100,
                    sub := "s".data, email := none })
        "cid".data 50 "a.b".data = .error "Invalid Apple ID token format" ∧
    decodeAppleIdToken
        (fun _ => { iss := "x".data, aud := "cid".data, exp := 100,
                    sub := "s".data, email := none })
        "cid".data 50 "a.b.c".data = .error "Invalid Apple ID token issuer" ∧
    decodeAppleIdToken
        (fun _ => { iss := "https://appleid.apple.com".data, aud := "other".data,
                    exp := 100, sub := "s".data, email := none })
        "cid".data 50 "a.b.c".data = .error "Invalid Apple ID token audience" ∧
    decodeAppleIdToken
        (fun _ => { iss := "https://appleid.apple.com".data, aud := "cid".data,
                    exp := 5, sub := "s".data, email := none })
        "cid".data 50 "a.b.c".data = .error "Apple ID token has expired" ∧
    decodeAppleIdToken
        (fun _ => { iss := "https://appleid.apple.com".data, aud := "cid".data,
                    exp := 100, sub := "s".data, email := none })
        "cid".data 50 "a.b.c".data =
      .ok { iss := "https://appleid.apple.com".data, aud := "cid".data,
            exp := 100, sub := "s".data, email := none } := by
  refine ⟨decodeAppleIdToken_spec.1 _ _ _ _ (by decide),
    decodeAppleIdToken_spec.2.1 _ _ _ _ (by decide) (by decide),
    decodeAppleIdToken_spec.2.2.1 _ _ _ _ (by decide) (by decide) (by decide),
    decodeAppleIdToken_spec.2.2.2.1 _ _ _ _ (by decide) (by decide) (by decide) (by decide),
    decodeAppleIdToken_spec.2.2.2.2.1 _ _ _ _ (by decide) (by decide) (by decide) (by decide)⟩

-- ─── verifyCredentials (claim C6) ────────────────────────────────────────

/-- Claim C6: `verifyCredentials` looks the user up by the normalized
email — two emails with the same normalization behave identically — and
returns the found user exactly when it exists, carries a (truthy) password
digest, and the digest verifies the password; each of the three failure
cases (no such user, no digest, non-verifying password) returns the same
value `none`. -/
theorem verifyCredentials_spec :
    (∀ (db : List User) (kdf : Kdf) (e1 e2 p : Str),
      normalizeEmail e1 = normalizeEmail e2 →
      verifyCredentials db kdf e1 p = verifyCredentials db kdf e2 p) ∧
    (∀ (db : List User) (kdf : Kdf) (e p : Str) (u : User),
      db.find? (fun x => decide (x.email = normalizeEmail e)) = some u →
      optTruthy u.passwordHash = true →
      verifyPassword kdf p (u.passwordHash.getD []) = true →
      verifyCredentials db kdf e p = some u) ∧
    (∀ (db : List User) (kdf : Kdf) (e p : Str),
      db.find? (fun x => decide (x.email = normalizeEmail e)) = none →
      verifyCredentials db kdf e p = none) ∧
    (∀ (db : List User) (kdf : Kdf) (e p : Str) (u : User),
      db.find? (fun x => decide (x.email = normalizeEmail e)) = some u →
      optTruthy u.passwordHash = false →
      verifyCredentials db kdf e p = none) ∧
    (∀ (db : List User) (kdf : Kdf) (e p : Str) (u : User),
      db.find? (fun x => decide (x.email = normalizeEmail e)) = some u →
      optTruthy u.passwordHash = true →
      verifyPassword kdf p (u.passwordHash.getD []) = false →
      verifyCredentials db kdf e p = none) := by
  refine ⟨?_, ?_, ?_, ?_, ?_⟩
  · intro db kdf e1 e2 p h
    simp only [verifyCredentials, h]
  · intro db kdf e p u hf h1 h2
    simp only [verifyCredentials, hf]
    rw [if_pos h1, if_pos h2]
  · intro db kdf e p hf
    simp only [verifyCredentials, hf]
  · intro db kdf e p u hf h1
    simp only [verifyCredentials, hf]
    rw [if_neg (by simp [h1])]
  · intro db kdf e p u hf h1 h2
    simp only [verifyCredentials, hf]
    rw [if_pos h1, if_neg (by simp [h2])]

/-- Witness for C6: a differently-cased email reaches the same user as the
stored one; correct password returns the user; unknown email, digest-less
user, and a wrong password all return `none`. -/
theorem verifyCredentials_spec_witness :
    verifyCredentials [alice, bob] kdfConst "A@X.com".data "secret12".data =
      verifyCredentials [alice, bob] kdfConst "a@x.com".data "secret12".data ∧
    verifyCredentials [alice, bob] kdfConst "a@x.com".data "secret12".data = some alice ∧
    verifyCredentials [alice, bob] kdfConst "nobody@x.com".data "secret12".data = none ∧
    verifyCredentials [alice, bob] kdfConst "b@y.com".data "secret12".data = none ∧
    verifyCredentials [alice, bob] kdfConst "a@x.com".data "wrongpass".data = none := by
  refine ⟨verifyCredentials_spec.1 [alice, bob] kdfConst _ _ _ (by decide),
    verifyCredentials_spec.2.1 [alice, bob] kdfConst _ _ alice (by decide) (by decide)
      (by decide),
    verifyCredentials_spec.2.2.1 [alice, bob] kdfConst _ _ (by decide),
    verifyCredentials_spec.2.2.2.1 [alice, bob] kdfConst _ _ bob (by decide) (by decide),
    verifyCredentials_spec.2.2.2.2 [alice, bob] kdfConst _ _ alice (by decide) (by decide)
      (by decide)⟩

-- ─── validateSession (claim C7) ──────────────────────────────────────────

theorem find?_deleteSession (sessions : List Session) (sid : Str) :
    (deleteSession sessions sid).find? (fun s => decide (s.id = sid)) = none := by
  apply List.find?_eq_none.mpr
  intro x hx
  have hmem := (List.mem_filter.mp hx).2
  simp only [Bool.not_eq_true', decide_eq_false_iff_not] at hmem
  simpa using hmem

/-- Claim C7: `validateSession` returns `none` when the session row is
absent; when `expiresAt` is in the past it deletes the row and returns
`none`, the deleted table holds no row with that id, and a second
validation of the same id (at any clock, against any user table) also
returns `none`; when the session is unexpired it returns `getUserById` of
the owning user (which is `none` exactly when that user is missing) and
leaves the table unchanged. -/
theorem validateSession_spec :
    (∀ (users : List User) (sessions : List Session) (nowMs : Int) (sid : Str),
      sessions.find? (fun s => decide (s.id = sid)) = none →
      validateSession users sessions nowMs sid = (none, sessions)) ∧
    (∀ (users : List User) (sessions : List Session) (nowMs : Int) (sid : Str)
        (s : Session),
      sessions.find? (fun x => decide (x.id = sid)) = some s →
      s.expiresAt < nowMs →
      validateSession users sessions nowMs sid = (none, deleteSession sessions sid) ∧
      (∀ x ∈ deleteSession sessions sid, x.id ≠ sid) ∧
      (∀ (users' : List User) (nowMs' : Int),
        validateSession users' (deleteSession sessions sid) nowMs' sid =
          (none, deleteSession sessions sid))) ∧
    (∀ (users : List User) (sessions : List Session) (nowMs : Int) (sid : Str)
        (s : Session),
      sessions.find? (fun x => decide (x.id = sid)) = some s →
      ¬ s.expiresAt < nowMs →
      validateSession users sessions nowMs sid =
        (getUserById users s.userId, sessions)) := by
  refine ⟨?_, ?_, ?_⟩
  · intro users sessions nowMs sid hf
    simp only [validateSession, hf]
  · intro users sessions nowMs sid s hf hexp
    refine ⟨?_, ?_, ?_⟩
    · simp only [validateSession, hf]
      rw [if_pos hexp]
    · intro x hx
      have hmem := (List.mem_filter.mp hx).2
      simpa using hmem
    · intro users' nowMs'
      simp only [validateSession, find?_deleteSession]
  · intro users sessions nowMs sid s hf hexp
    simp only [validateSession, hf]
    rw [if_neg hexp]

/-- Witness for C7: an unknown id, an expired session (validated twice), and
a live session over the concrete fixture tables. -/
theorem validateSession_spec_witness :
    validateSession [alice] [sessLive, sessOld] 500 "s9".data =
      (none, [sessLive, sessOld]) ∧
    validateSession [alice] [sessLive, sessOld] 500 "s2".data =
      (none, deleteSession [sessLive, sessOld] "s2".data) ∧
    (∀ x ∈ deleteSession [sessLive, sessOld] "s2".data, x.id ≠ "s2".data) ∧
    validateSession [alice] (deleteSession [sessLive, sessOld] "s2".data) 9999 "s2".data =
      (none, deleteSession [sessLive, sessOld] "s2".data) ∧
    validateSession [alice] [sessLive, sessOld] 500 "s1".data =
      (getUserById [alice] sessLive.userId, [sessLive, sessOld]) := by
  have h2 := validateSession_spec.2.1 [alice] [sessLive, sessOld] 500 "s2".data sessOld
    (by decide) (by decide)
  exact ⟨validateSession_spec.1 [alice] [sessLive, sessOld] 500 "s9".data (by decide),
    h2.1, h2.2.1, h2.2.2 [alice] 9999,
    validateSession_spec.2.2 [alice] [sessLive, sessOld] 500 "s1".data sessLive
      (by decide) (by decide)⟩

-- ─── Apple callback: CSRF check and state cookie (claims C8, C10) ────────

/-- Claim C8: when the submitted state is absent, the stored CSRF cookie is
absent, or the two differ, the callback is rejected with the CSRF error and
the token-exchange step is never reached (the reached-exchange flag is
`false`, for every possible exchange function), the state cookie having been
cleared. -/
theorem appleCallback_csrf_reject :
    ∀ (ex : Str → Except String AppleTokenResponse) (body : CallbackBody)
      (cookies : OauthCookies),
      (body.state = none ∨ cookies.appleOauthState = none ∨
        body.state ≠ cookies.appleOauthState) →
      appleCallback ex body cookies =
        (.error "Invalid state — possible CSRF attack",
         { appleOauthState := none }, false) := by
  intro ex body cookies h
  have hcond : (!optTruthy body.state || !optTruthy cookies.appleOauthState
      || decide (body.state ≠ cookies.appleOauthState)) = true := by
    rcases h with h | h | h
    · simp [h, optTruthy]
    · simp [h, optTruthy]
    · simp [h]
  simp only [appleCallback]
  rw [if_pos hcond]

/-- Witness for C8: a mismatching state with an otherwise plausible code is
rejected without reaching the exchange. -/
theorem appleCallback_csrf_reject_witness :
    appleCallback (fun _ => .error "never")
        { code := some "authcode".data, state := some "s1".data }
        { appleOauthState := some "s2".data } =
      (.error "Invalid state — possible CSRF attack",
       { appleOauthState := none }, false) :=
  appleCallback_csrf_reject _ _ _ (Or.inr (Or.inr (by decide)))

/-- Claim C10: every invocation of the callback leaves the state cookie
deleted — in all branches, rejected or not — and a second run against the
emptied cookie jar is rejected with the CSRF error for any body and any
exchange function (the stored state can be presented at most once). -/
theorem appleCallback_state_cookie_single_use :
    ∀ (ex : Str → Except String AppleTokenResponse) (body : CallbackBody)
      (cookies : OauthCookies),
      (appleCallback ex body cookies).2.1 = { appleOauthState := none } ∧
      (∀ (ex' : Str → Except String AppleTokenResponse) (body' : CallbackBody),
        appleCallback ex' body' { appleOauthState := none } =
          (.error "Invalid state — possible CSRF attack",
           { appleOauthState := none }, false)) := by
  intro ex body cookies
  constructor
  · simp only [appleCallback]
    split
    · rfl
    · split
      · rfl
      · rfl
  · intro ex' body'
    simp [appleCallback, optTruthy]

-- ─── findOrCreateOAuthUser, link branch (claims C1, C9) ──────────────────

theorem foc_link_eq {db : List User} {newId now : Str} {opts : OAuthOpts} {ex : User}
    (hfind : getUserByEmail db opts.email = some ex)
    (h2 : optTruthy opts.appleId = true)
    (h3 : optTruthy ex.appleId = false) :
    findOrCreateOAuthUser db newId now opts =
      .ok (ex, linkAppleId opts.appleId now ex.id db) := by
  simp only [findOrCreateOAuthUser, hfind]
  rw [if_pos (by rw [h2, h3]; rfl)]

/-- Counterexample to claim C1 as stated: for an existing user with no
providerId and a supplied providerId, the call writes the providerId to the
stored row (second conjunct) but the *returned* user record still carries no
providerId (first conjunct) — it is the stale pre-update record. -/
theorem foc_link_returns_stale_cex :
    ((findOrCreateOAuthUser [carol] "u9".data "t1".data
        { email := "c@z.com".data, name := none, appleId := some "apple-c".data }).toOption.map
      (fun pr => pr.1.appleId)) = some none ∧
    ((findOrCreateOAuthUser [carol] "u9".data "t1".data
        { email := "c@z.com".data, name := none, appleId := some "apple-c".data }).toOption.map
      (fun pr => pr.2.map (fun u => u.appleId))) = some [some "apple-c".data] := by
  exact ⟨by decide, by decide⟩

/-- Claim C1 (amended): when `findOrCreateOAuthUser` finds a user by email
that has no (truthy) providerId and a truthy providerId is supplied, it
links the providerId in the store — the updated table contains a row with
the user's id carrying the new providerId — but the record it returns is
the previously fetched one, whose providerId field does not carry the newly
linked value. -/
theorem foc_link_returns_stale :
    ∀ (db : List User) (newId now : Str) (opts : OAuthOpts) (ex : User),
      getUserByEmail db opts.email = some ex →
      optTruthy opts.appleId = true →
      optTruthy ex.appleId = false →
      findOrCreateOAuthUser db newId now opts =
        .ok (ex, linkAppleId opts.appleId now ex.id db) ∧
      ex.appleId ≠ opts.appleId ∧
      ∃ u' ∈ linkAppleId opts.appleId now ex.id db,
        u'.id = ex.id ∧ u'.appleId = opts.appleId := by
  intro db newId now opts ex hfind h2 h3
  refine ⟨foc_link_eq hfind h2 h3, ?_, ?_⟩
  · intro heq
    rw [heq] at h3
    rw [h2] at h3
    exact Bool.noConfusion h3
  · have hf : db.find? (fun u => decide (u.email = normalizeEmail opts.email)) =
        some ex := hfind
    have hmem : ex ∈ db := List.mem_of_find?_eq_some hf
    refine ⟨{ ex with appleId := opts.appleId, updatedAt := now }, ?_, rfl, rfl⟩
    have := List.mem_map_of_mem
      (fun u => if u.id = ex.id then { u with appleId := opts.appleId, updatedAt := now }
        else u) hmem
    simpa [linkAppleId] using this

/-- Witness for C1 over the concrete fixture: linking `apple-c` to `carol`. -/
theorem foc_link_returns_stale_witness :
    findOrCreateOAuthUser [carol] "u9".data "t1".data
        { email := "c@z.com".data, name := none, appleId := some "apple-c".data } =
      .ok (carol, linkAppleId (some "apple-c".data) "t1".data carol.id [carol]) ∧
    carol.appleId ≠ some "apple-c".data ∧
    ∃ u' ∈ linkAppleId (some "apple-c".data) "t1".data carol.id [carol],
      u'.id = carol.id ∧ u'.appleId = some "apple-c".data :=
  foc_link_returns_stale [carol] "u9".data "t1".data
    { email := "c@z.com".data, name := none, appleId := some "apple-c".data } carol
    (by decide) (by decide) (by decide)

/-- Claim C9: the linking update rewrites only the `appleId` and `updatedAt`
fields of the rows with the found user's id — `id`, `email`,
`passwordHash`, `name`, `isAdmin` and `createdAt` are unchanged everywhere,
rows with other ids are untouched, and no row is added or removed. -/
theorem foc_link_frame :
    ∀ (db : List User) (newId now : Str) (opts : OAuthOpts) (ex : User),
      getUserByEmail db opts.email = some ex →
      optTruthy opts.appleId = true →
      optTruthy ex.appleId = false →
      findOrCreateOAuthUser db newId now opts =
        .ok (ex, linkAppleId opts.appleId now ex.id db) ∧
      (linkAppleId opts.appleId now ex.id db).length = db.length ∧
      (∀ i, i < db.length →
        ∃ u u', db.get? i = some u ∧
          (linkAppleId opts.appleId now ex.id db).get? i = some u' ∧
          u'.id = u.id ∧ u'.email = u.email ∧ u'.passwordHash = u.passwordHash ∧
          u'.name = u.name ∧ u'.isAdmin = u.isAdmin ∧ u'.createdAt = u.createdAt ∧
          (u.id ≠ ex.id → u' = u) ∧
          (u.id = ex.id → u'.appleId = opts.appleId ∧ u'.updatedAt = now)) := by
  intro db newId now opts ex hfind h2 h3
  refine ⟨foc_link_eq hfind h2 h3, by simp [linkAppleId], ?_⟩
  intro i hi
  cases hgi : db.get? i with
  | none =>
    have := List.get?_eq_none.mp hgi
    omega
  | some u =>
    refine ⟨u,
      if u.id = ex.id then { u with appleId := opts.appleId, updatedAt := now } else u,
      rfl, ?_, ?_⟩
    · rw [linkAppleId, List.get?_map, hgi, Option.map_some']
    · by_cases hid : u.id = ex.id
      · simp [hid]
      · simp [hid]

/-- Witness for C9 over the concrete fixture: the frame of linking
`apple-c` to `carol` in a one-row table. -/
theorem foc_link_frame_witness :
    findOrCreateOAuthUser [carol] "u9".data "t1".data
        { email := "c@z.com".data, name := none, appleId := some "apple-c".data } =
      .ok (carol, linkAppleId (some "apple-c".data) "t1".data carol.id [carol]) ∧
    (linkAppleId (some "apple-c".data) "t1".data carol.id [carol]).length =
      ([carol] : List User).length ∧
    (∀ i, i < ([carol] : List User).length →
      ∃ u u', ([carol] : List User).get? i = some u ∧
        (linkAppleId (some "apple-c".data) "t1".data carol.id [carol]).get? i = some u' ∧
        u'.id = u.id ∧ u'.email = u.email ∧ u'.passwordHash = u.passwordHash ∧
        u'.name = u.name ∧ u'.isAdmin = u.isAdmin ∧ u'.createdAt = u.createdAt ∧
        (u.id ≠ carol.id → u' = u) ∧
        (u.id = carol.id → u'.appleId = some "apple-c".data ∧ u'.updatedAt = "t1".data)) :=
  foc_link_frame [carol] "u9".data "t1".data
    { email := "c@z.com".data, name := none, appleId := some "apple-c".data } carol
    (by decide) (by decide) (by decide)

-- ─── Creation paths and the authentication-method invariant (claim C2) ───

theorem find?_fresh_append (db : List User) (nu : User) (tid : Str)
    (hid : nu.id = tid) (hfresh : ∀ u ∈ db, u.id ≠ tid) :
    (db ++ [nu]).find? (fun u => decide (u.id = tid)) = some nu := by
  induction db with
  | nil => simp [List.find?, hid]
  | cons a t ih =>
    have ha := hfresh a (List.mem_cons_self a t)
    rw [List.cons_append, List.find?_cons_of_neg _ (by simpa using ha)]
    exact ih (fun u hu => hfresh u (List.mem_cons_of_mem a hu))

/-- Counterexample to claim C2 as stated: the create branch of
`findOrCreateOAuthUser`, called with no providerId, produces a user whose
password digest and providerId are both null — no authentication method at
all. -/
theorem creation_no_auth_method_cex :
    ((findOrCreateOAuthUser [] "u1".data "t0".data
        { email := "a@x.com".data, name := none, appleId := none }).toOption.map
      (fun pr => (pr.1.passwordHash, pr.1.appleId))) = some (none, none) := by
  decide

/-- Claim C2 (amended): `createUser` always produces a user with a non-null
password digest; the create branch of `findOrCreateOAuthUser` produces a
user carrying the supplied providerId whenever that argument is truthy
(supplied and non-empty) — but when it is absent or empty the created user
has neither a password digest nor a providerId. -/
theorem creation_auth_method :
    (∀ (db : List User) (kdf : Kdf) (newId : Str) (salt : List Nat)
        (now email password : Str) (name : Option Str),
      (∀ u ∈ db, u.id ≠ newId) →
      ∃ u db', createUser db kdf newId salt now email password name = .ok (u, db') ∧
        u.passwordHash = some (hashPassword kdf salt password) ∧
        u.passwordHash ≠ none) ∧
    (∀ (db : List User) (newId now : Str) (opts : OAuthOpts),
      getUserByEmail db opts.email = none →
      (∀ u ∈ db, u.id ≠ newId) →
      optTruthy opts.appleId = true →
      ∃ u db', findOrCreateOAuthUser db newId now opts = .ok (u, db') ∧
        u.appleId = opts.appleId ∧ u.appleId ≠ none ∧ u.passwordHash = none) ∧
    (∀ (db : List User) (newId now : Str) (opts : OAuthOpts),
      getUserByEmail db opts.email = none →
      (∀ u ∈ db, u.id ≠ newId) →
      optTruthy opts.appleId = false →
      ∃ u db', findOrCreateOAuthUser db newId now opts = .ok (u, db') ∧
        u.appleId = none ∧ u.passwordHash = none) := by
  refine ⟨?_, ?_, ?_⟩
  · intro db kdf newId salt now email password name hfresh
    have hf := find?_fresh_append db
      { id := newId, email := normalizeEmail email,
        passwordHash := some (hashPassword kdf salt password),
        name := if optTruthy name then name else none,
        appleId := none, isAdmin := false, createdAt := now, updatedAt := now }
      newId rfl hfresh
    have heq : createUser db kdf newId salt now email password name =
        .ok
          ({ id := newId, email := normalizeEmail email,
             passwordHash := some (hashPassword kdf salt password),
             name := if optTruthy name then name else none,
             appleId := none, isAdmin := false, createdAt := now, updatedAt := now },
           db ++
             [{ id := newId, email := normalizeEmail email,
                passwordHash := some (hashPassword kdf salt password),
                name := if optTruthy name then name else none,
                appleId := none, isAdmin := false, createdAt := now,
                updatedAt := now }]) := by
      simp only [createUser, hf]
    exact ⟨_, _, heq, rfl, by simp⟩
  · intro db newId now opts hnone hfresh htruthy
    have hf := find?_fresh_append db
      { id := newId, email := normalizeEmail opts.email, passwordHash := none,
        name := if optTruthy opts.name then opts.name else none,
        appleId := if optTruthy opts.appleId then opts.appleId else none,
        isAdmin := false, createdAt := now, updatedAt := now }
      newId rfl hfresh
    have heq : findOrCreateOAuthUser db newId now opts =
        .ok
          ({ id := newId, email := normalizeEmail opts.email, passwordHash := none,
             name := if optTruthy opts.name then opts.name else none,
             appleId := if optTruthy opts.appleId then opts.appleId else none,
             isAdmin := false, createdAt := now, updatedAt := now },
           db ++
             [{ id := newId, email := normalizeEmail opts.email, passwordHash := none,
                name := if optTruthy opts.name then opts.name else none,
                appleId := if optTruthy opts.appleId then opts.appleId else none,
                isAdmin := false, createdAt := now, updatedAt := now }]) := by
      simp only [findOrCreateOAuthUser, hnone, hf]
    refine ⟨_, _, heq, ?_, ?_, rfl⟩
    · simp [htruthy]
    · simp only [htruthy, if_true]
      cases hoa : opts.appleId with
      | none =>
        rw [hoa] at htruthy
        simp [optTruthy] at htruthy
      | some s => simp [hoa]
  · intro db newId now opts hnone hfresh hfalsy
    have hf := find?_fresh_append db
      { id := newId, email := normalizeEmail opts.email, passwordHash := none,
        name := if optTruthy opts.name then opts.name else none,
        appleId := if optTruthy opts.appleId then opts.appleId else none,
        isAdmin := false, createdAt := now, updatedAt := now }
      newId rfl hfresh
    have heq : findOrCreateOAuthUser db newId now opts =
        .ok
          ({ id := newId, email := normalizeEmail opts.email, passwordHash := none,
             name := if optTruthy opts.name then opts.name else none,
             appleId := if optTruthy opts.appleId then opts.appleId else none,
             isAdmin := false, createdAt := now, updatedAt := now },
           db ++
             [{ id := newId, email := normalizeEmail opts.email, passwordHash := none,
                name := if optTruthy opts.name then opts.name else none,
                appleId := if optTruthy opts.appleId then opts.appleId else none,
                isAdmin := false, createdAt := now, updatedAt := now }]) := by
      simp only [findOrCreateOAuthUser, hnone, hf]
    refine ⟨_, _, heq, ?_, rfl⟩
    simp [hfalsy]

/-- Witness for C2 (amended) at concrete inputs: a password signup, an OAuth
creation with a providerId, and an OAuth creation without one. -/
theorem creation_auth_method_witness :
    (∃ u db', createUser [] kdfConst "u7".data saltA "t0".data "new@x.com".data
        "secret12".data none = .ok (u, db') ∧
      u.passwordHash = some (hashPassword kdfConst saltA "secret12".data) ∧
      u.passwordHash ≠ none) ∧
    (∃ u db', findOrCreateOAuthUser [] "u8".data "t0".data
        { email := "n@x.com".data, name := none, appleId := some "apple-n".data } =
          .ok (u, db') ∧
      u.appleId = some "apple-n".data ∧ u.appleId ≠ none ∧ u.passwordHash = none) ∧
    (∃ u db', findOrCreateOAuthUser [] "u9".data "t0".data
        { email := "m@x.com".data, name := none, appleId := none } = .ok (u, db') ∧
      u.appleId = none ∧ u.passwordHash = none) :=
  ⟨creation_auth_method.1 [] kdfConst "u7".data saltA "t0".data "new@x.com".data
      "secret12".data none (by simp),
   creation_auth_method.2.1 [] "u8".data "t0".data
      { email := "n@x.com".data, name := none, appleId := some "apple-n".data }
      (by decide) (by simp) (by decide),
   creation_auth_method.2.2 [] "u9".data "t0".data
      { email := "m@x.com".data, name := none, appleId := none }
      (by decide) (by simp) (by decide)⟩

end SnakeGame
